import Mathlib

/-
  Verification of the CSVParser repository (CSVParser.h): a streaming CSV
  decoder.  The embedding below models, faithfully to the C++ source:

  * `convertFromString`  — string-to-typed-value conversion via
    `std::stringstream >> value` with the `ss.fail() || !ss.eof()` check
    (modelled for the `std::string` and `int` instantiations);
  * `CSVRow.parse`       — the `while (getline(ss, cell, delimiter))` loop
    with its quote-stripping state machine;
  * `convertToTuple`     — the recursive per-field conversion, with the
    unchecked `values[Index]` access made explicit as `DecodeResult.undefinedRead`;
  * `CSVParserIterator`  — the pull-based iterator (`advance`, `operator!=`)
    and `CSVParser` construction with `skipLines`.

  Machine integers are modelled as `Int` with the explicit 32-bit range
  check that `operator>>` performs for `int` (out-of-range ⇒ failbit).
-/

namespace CSVParser

/-! ## Value converter (convertFromString, CSVParser.h lines 10–26) -/

/-- Schema column type tags.  The C++ code instantiates the row tuple at
target types; we model the `std::string` and `int` instantiations, which
exercise both branches of `convertFromString`. -/
inductive FieldType where
  | tString
  | tInt
  deriving DecidableEq, Repr

/-- A decoded field value, tagged by its type. -/
inductive FieldValue where
  | vString (s : List Char)
  | vInt (n : Int)
  deriving DecidableEq, Repr

/-- Characters skipped by the stream sentry before `operator>> (int)`
(`std::isspace` in the default locale). -/
def isSpaceChar (c : Char) : Bool :=
  c == ' ' || c == '\t' || c == '\n' || c == '\r' || c == '\x0b' || c == '\x0c'

/-- Numeric value of a decimal digit character. -/
def digitVal (c : Char) : Nat := c.toNat - '0'.toNat

/-- Value of a decimal digit string, most significant digit first. -/
def digitsToNat (ds : List Char) : Nat :=
  ds.foldl (fun a c => 10 * a + digitVal c) 0

/-- Smallest value of the C++ `int` type (32-bit), −2³¹. -/
def intMin : Int := -2147483648

/-- Largest value of the C++ `int` type (32-bit), 2³¹ − 1. -/
def intMax : Int := 2147483647

/-- Result of one `ss >> value` extraction: the stored value, whether the
stream is failbit-free, and the unconsumed remainder of the buffer (empty
remainder ⇔ `ss.eof()` after the extraction). -/
structure IntExtract where
  value : Int
  ok : Bool
  rest : List Char
  deriving DecidableEq, Repr

/-- Models `std::stringstream >> value` for `value : int`: the sentry skips
leading whitespace, then an optional sign and a maximal run of decimal
digits are consumed.  No digits, or a value outside the 32-bit `int`
range, sets failbit (`ok := false`). -/
def extractInt (s : List Char) : IntExtract :=
  let s1 := s.dropWhile isSpaceChar
  let sign : Int := if s1.head? = some '-' then -1 else 1
  let s2 := if s1.head? = some '-' ∨ s1.head? = some '+' then s1.drop 1 else s1
  let ds := s2.takeWhile Char.isDigit
  let rest := s2.dropWhile Char.isDigit
  let v : Int := sign * (digitsToNat ds : Int)
  if ds = [] then ⟨0, false, rest⟩
  else if v < intMin ∨ intMax < v then ⟨0, false, rest⟩
  else ⟨v, true, rest⟩

/-- `convertFromString<int>` (CSVParser.h lines 15–25): runs the extraction
and throws (`none`) when `ss.fail() || !ss.eof()`, i.e. succeeds only when
the extraction set no failbit and consumed the entire string. -/
def convertIntFromString (s : List Char) : Option Int :=
  let r := extractInt s
  if r.ok = true ∧ r.rest = [] then some r.value else none

/-- `convertFromString<T>` (CSVParser.h lines 10–26): the `std::string`
branch returns the input unchanged and always succeeds; the numeric branch
is `convertIntFromString`.  `none` models the thrown
`std::invalid_argument`. -/
def convertFromString : FieldType → List Char → Option FieldValue
  | .tString, s => some (.vString s)
  | .tInt, s => (convertIntFromString s).map .vInt

/-! ## Field tokenizer (CSVRow::parse, CSVParser.h lines 68–91) -/

/-- The cells produced by the repeated `getline(ss, cell, delimiter)` calls
of `CSVRow::parse`: `getline` succeeds while the stream position is not at
the end, consuming characters up to (and including) the next delimiter.
Consequence of this semantics: an empty input yields no cells at all, and
a line ending in the delimiter yields no final empty cell (the loop exits
at end-of-buffer before producing it). -/
def splitCells (d : Char) : List Char → List (List Char)
  | [] => []
  | c :: cs =>
    if c = d then [] :: splitCells d cs
    else
      match splitCells d cs with
      | [] => [[c]]
      | cell :: rest => (c :: cell) :: rest

/-- One iteration of the quote-handling in the `CSVRow::parse` loop body
(CSVParser.h lines 74–88), mapping the current cell and `inQuotes` state to
the emitted cell and the next state.  The source probes `cell.front()` and
`cell.back()`; for an empty cell that access is undefined behaviour in C++,
and this model adopts the common implementation outcome (the probe of an
empty cell matches no quote character, so the cell passes through
unchanged).  The undefined access itself is tracked separately by
`parseProbesEmptyCell`. -/
def processCell (q : Char) (inQuotes : Bool) (cell : List Char) : List Char × Bool :=
  if inQuotes then
    if cell.getLast? = some q then (cell.dropLast, false) else (cell, true)
  else if cell.head? = some q then
    if cell.getLast? = some q then ((cell.drop 1).dropLast, false)
    else (cell.drop 1, true)
  else (cell, false)

/-- Folds `processCell` over the cells of a row, threading the `inQuotes`
flag exactly as the `while` loop of `CSVRow::parse` does. -/
def processCells (q : Char) : Bool → List (List Char) → List (List Char)
  | _, [] => []
  | inQ, cell :: rest =>
    let p := processCell q inQ cell
    p.1 :: processCells q p.2 rest

/-- `CSVRow::parse` (CSVParser.h lines 68–91): split the line on the
delimiter via `getline`, then quote-process each cell in order.  (In the
source the two steps are interleaved in one loop, but the `getline`
consumption does not depend on the quote state, so the composition is the
same function.)  The `CSVRow` constructor skips `parse` for an empty line,
which coincides with `splitCells` producing no cells there. -/
def CSVRow.parse (line : List Char) (d q : Char) : List (List Char) :=
  processCells q false (splitCells d line)

/-- Whether the `CSVRow::parse` loop performs an undefined empty-string
access: every cell produced by `getline` is probed by `cell.front()` (when
not in quotes) or `cell.back()` (when in quotes), both of which are
undefined on an empty cell.  So the undefined access happens exactly when
some cell is empty. -/
def parseProbesEmptyCell (line : List Char) (d : Char) : Bool :=
  (splitCells d line).any List.isEmpty

/-! ## Row decoder (CSVRow::convertToTuple, CSVParser.h lines 94–124) -/

/-- Outcome of decoding one row.  `error line col` models a thrown
`CSVParseException("Error parsing value", line, col)`.  `undefinedRead i`
makes the unchecked `values[Index]` access of the source explicit: the
source indexes `std::vector::operator[]` out of bounds there, which is
undefined behaviour, not a defined result. -/
inductive DecodeResult where
  | record (fields : List FieldValue)
  | error (line col : Nat)
  | undefinedRead (idx : Nat)
  deriving DecidableEq, Repr

/-- `CSVRow::convertToTuple<Index, T, Rest...>` (CSVParser.h lines 94–111):
convert `values[Index]` to the head type (wrapping a conversion failure in
a `CSVParseException` carrying the row's line number and `Index`), then
recurse on the remaining types at `Index + 1`.  `values[i]? = none`
is the out-of-bounds vector access of the source. -/
def convertToTuple (values : List (List Char)) (ln : Nat) : Nat → List FieldType → DecodeResult
  | _, [] => .record []
  | i, t :: rest =>
    match values[i]? with
    | none => .undefinedRead i
    | some raw =>
      match convertFromString t raw with
      | none => .error ln i
      | some v =>
        match convertToTuple values ln (i + 1) rest with
        | .record vs => .record (v :: vs)
        | r => r

/-- `CSVRow::getValues` (CSVParser.h lines 57–59): convert the stored cell
strings into the typed record, starting at index 0. -/
def getValues (values : List (List Char)) (ln : Nat) (schema : List FieldType) : DecodeResult :=
  convertToTuple values ln 0 schema

/-! ## Row stream (CSVParserIterator / CSVParser, CSVParser.h lines 129–203) -/

/-- State of a `CSVParserIterator`: the remaining lines of the underlying
file, the delimiter/quote passed at construction, the current row's parsed
cells and line number (`CSVRow::values` / `CSVRow::LineNumber`), the `end`
flag, and the iterator's line counter. -/
structure CSVParserIterator where
  file : List (List Char)
  delim : Char
  quote : Char
  values : List (List Char)
  rowLine : Nat
  endFlag : Bool
  lineNumber : Nat
  deriving DecidableEq, Repr

/-- `CSVParserIterator::advance` (CSVParser.h lines 163–171): pull one line;
if one is available, increment the line counter and parse the line into the
current row; otherwise set the `end` flag.  Note the source constructs the
next `CSVRow` with the literal characters `','` and `'"'`, not with the
delimiter and quote the iterator was constructed with. -/
def CSVParserIterator.advance (it : CSVParserIterator) : CSVParserIterator :=
  match it.file with
  | [] => { it with endFlag := true }
  | line :: rest =>
    { it with
      file := rest
      lineNumber := it.lineNumber + 1
      values := CSVRow.parse line ',' '\"'
      rowLine := it.lineNumber + 1 }

/-- The `CSVParserIterator` constructor (CSVParser.h lines 134–139): the
current row starts as `CSVRow("", delimiter, quote, 0)` (empty line, so no
cells), the line counter at 0; a non-end iterator immediately advances to
the first row. -/
def CSVParserIterator.make (file : List (List Char)) (endFlag : Bool) (d q : Char) :
    CSVParserIterator :=
  let it : CSVParserIterator := ⟨file, d, q, [], 0, endFlag, 0⟩
  if endFlag then it else it.advance

/-- `CSVParserIterator::operator!=` (CSVParser.h lines 152–154): iterators
compare unequal exactly when their `end` flags differ.  The range-for loop
keeps pulling while this is `true` against the past-the-end iterator. -/
def CSVParserIterator.ne (a b : CSVParserIterator) : Bool :=
  a.endFlag != b.endFlag

/-- State of a `CSVParser`: the remaining lines of the file after skipping,
and the configured delimiter and quote character. -/
structure CSVParserState where
  file : List (List Char)
  delim : Char
  quote : Char
  deriving DecidableEq, Repr

/-- The `CSVParser` constructor (CSVParser.h lines 180–187): consume and
discard `skipLines` leading lines from the file, store the delimiter and
quote. -/
def CSVParserState.make (lines : List (List Char)) (skipLines : Nat) (d q : Char) :
    CSVParserState :=
  ⟨lines.drop skipLines, d, q⟩

/-- `CSVParser::begin` (CSVParser.h lines 190–192): a fresh non-end iterator
over the (already skipped) file, advanced to the first row. -/
def CSVParserState.begin (p : CSVParserState) : CSVParserIterator :=
  CSVParserIterator.make p.file false p.delim p.quote

/-- `CSVParser::end` (CSVParser.h lines 195–197): the past-the-end iterator,
distinguished only by its `end` flag. -/
def CSVParserState.endIter (p : CSVParserState) : CSVParserIterator :=
  CSVParserIterator.make p.file true p.delim p.quote

end CSVParser

namespace CSVParser

/-! ## Claims: concrete evaluations -/

/-- C1: the claim says every line pulled from a stream constructed with
delimiter `d` and quote `q` is tokenized with `d` and `q`.  The code
violates this: `CSVParserIterator::advance` constructs each row with the
literal characters `','` and `'"'`, so a stream configured with delimiter
`';'` tokenizes the line `1;2` as the single cell `1;2` instead of
`tokenize("1;2", ';', '"') = ["1", "2"]`. -/
theorem c1_advance_uses_hardcoded_delimiter :
    (CSVParserState.make [['1', ';', '2']] 0 ';' '\"').begin.values = [['1', ';', '2']]
    ∧ CSVRow.parse ['1', ';', '2'] ';' '\"' = [['1'], ['2']]
    ∧ [['1', ';', '2']] ≠ ([['1'], ['2']] : List (List Char)) := by decide

/-- C2: the claim says decode never reads past the end of the token
sequence and raises a DecodeError with columnIndex = min(len(tokens), N) on
arity mismatch.  The code instead performs an out-of-bounds `values[1]`
read when one token meets a two-column schema, and silently ignores the
extra tokens when three tokens meet a one-column schema. -/
theorem c2_decode_reads_out_of_bounds :
    getValues [['1']] 7 [.tInt, .tInt] = .undefinedRead 1
    ∧ getValues [['1'], ['2'], ['3']] 7 [.tInt] = .record [.vInt 1] := by decide

/-- C3: the claim says the tokenizer never accesses the first or last
character of an empty cell.  The code probes `cell.front()` on every cell
outside quotes, so the empty first cell of the line `,a` is probed (an
undefined empty-string access); under the common implementation outcome the
cell is then emitted as an unquoted empty field. -/
theorem c3_empty_cell_front_access :
    parseProbesEmptyCell [',', 'a'] ',' = true
    ∧ CSVRow.parse [',', 'a'] ',' '\"' = [[], ['a']] := by decide

/-- C6: the claim says an empty input line yields a single empty-string
token for a 1-column schema and a field-count-mismatch DecodeError for
N > 1, never a crash.  The code yields no tokens at all for an empty line,
and decoding then reads `values[0]` out of bounds for every schema
arity. -/
theorem c6_empty_line_out_of_bounds :
    CSVRow.parse [] ',' '\"' = []
    ∧ getValues (CSVRow.parse [] ',' '\"') 1 [.tString] = .undefinedRead 0
    ∧ getValues (CSVRow.parse [] ',' '\"') 1 [.tInt, .tInt] = .undefinedRead 0 := by decide

/-- C8: with skipLines = 1 over the lines `header` then `1,2`, the skipped
line is consumed undecoded, the first pulled row holds the cells `1`, `2`
with row line number 1, and decoding that row against schema {int, int}
yields the record (1, 2). -/
theorem c8_skiplines_scenario :
    (CSVParserState.make [['h','e','a','d','e','r'], ['1',',','2']] 1 ',' '\"').begin.values
      = [['1'], ['2']]
    ∧ (CSVParserState.make [['h','e','a','d','e','r'], ['1',',','2']] 1 ',' '\"').begin.rowLine = 1
    ∧ getValues [['1'], ['2']] 1 [.tInt, .tInt] = .record [.vInt 1, .vInt 2] := by decide

/-- C5 counterexample: the claim says the token count equals delimiter
occurrences plus one, including a trailing empty cell after a final
delimiter.  On the line `a,` the code emits the single token `a`: the
`getline` loop never produces the trailing empty cell, so the count is 1,
not 2. -/
theorem c5_counterexample :
    CSVRow.parse ['a', ','] ',' '\"' = [['a']]
    ∧ List.count ',' ['a', ','] + 1 = 2
    ∧ (CSVRow.parse ['a', ','] ',' '\"').length ≠ 2 := by decide

/-- C9 counterexample: the claim says a stream with skipLines = k reports
line number k + 1 for an error on the first decoded row.  With k = 1 over
the lines `h` then `x` and schema {int}, the error on the first decoded row
carries line number 1, not 2: the iterator's counter starts at 0 after the
skip, so skipped lines are not counted. -/
theorem c9_counterexample :
    (CSVParserState.make [['h'], ['x']] 1 ',' '\"').begin.rowLine = 1
    ∧ getValues (CSVParserState.make [['h'], ['x']] 1 ',' '\"').begin.values
        (CSVParserState.make [['h'], ['x']] 1 ',' '\"').begin.rowLine [.tInt]
      = .error 1 0
    ∧ (1 : Nat) ≠ 1 + 1 := by decide

/-- C10 counterexample: the claim says conversion of a field that is a
numeral extending to the end of the field succeeds for every numeric target
type.  For the `int` target the all-digit field `2147483648` exceeds the
32-bit range, the extraction sets failbit, and the conversion fails. -/
theorem c10_counterexample :
    (∀ c ∈ ['2','1','4','7','4','8','3','6','4','8'], c.isDigit = true)
    ∧ convertFromString .tInt ['2','1','4','7','4','8','3','6','4','8'] = none := by decide

end CSVParser

namespace CSVParser

/-! ## Claims: general theorems -/

/-- Advancing an iterator whose underlying source is exhausted only sets the
`end` flag; nothing else in the state changes. -/
theorem advance_of_exhausted (it : CSVParserIterator) (h : it.file = []) :
    it.advance = { it with endFlag := true } := by
  simp [CSVParserIterator.advance, h]

/-- C7: once the underlying line source yields no more lines, any positive
number of further pulls leaves the iterator in the same state with the
`end` flag set — no new row appears, no error state exists on that path —
and the iterator compares equal (via `operator!=`) to every past-the-end
iterator, so the consumer is told there are no more rows. -/
theorem c7_exhaustion_stable (it : CSVParserIterator) (h : it.file = []) (n : Nat)
    (p : CSVParserState) :
    CSVParserIterator.advance^[n + 1] it = { it with endFlag := true }
    ∧ CSVParserIterator.ne (CSVParserIterator.advance^[n + 1] it) p.endIter = false := by
  have key : ∀ m : Nat, CSVParserIterator.advance^[m + 1] it = { it with endFlag := true } := by
    intro m
    induction m with
    | zero => simpa using advance_of_exhausted it h
    | succ m ihm =>
      rw [Function.iterate_succ_apply', ihm]
      have h2 : ({ it with endFlag := true } : CSVParserIterator).file = [] := h
      rw [advance_of_exhausted _ h2]
  refine ⟨key n, ?_⟩
  rw [key n]
  simp [CSVParserIterator.ne, CSVParserState.endIter, CSVParserIterator.make]

/-- Witness for C7 at a concrete exhausted iterator and one further pull. -/
theorem c7_exhaustion_stable_witness :
    CSVParserIterator.advance^[0 + 1] (⟨[], ',', '\"', [], 0, false, 0⟩ : CSVParserIterator)
      = { (⟨[], ',', '\"', [], 0, false, 0⟩ : CSVParserIterator) with endFlag := true }
    ∧ CSVParserIterator.ne
        (CSVParserIterator.advance^[0 + 1] (⟨[], ',', '\"', [], 0, false, 0⟩ : CSVParserIterator))
        (CSVParserState.make [] 0 ',' '\"').endIter = false :=
  c7_exhaustion_stable ⟨[], ',', '\"', [], 0, false, 0⟩ rfl 0 (CSVParserState.make [] 0 ',' '\"')

/-- Every `CSVParseException` built by `convertToTuple` carries the line
number the conversion was started with. -/
theorem convertToTuple_error_line (values : List (List Char)) (ln : Nat) :
    ∀ (s : List FieldType) (k l c : Nat),
      convertToTuple values ln k s = .error l c → l = ln := by
  intro s
  induction s with
  | nil =>
    intro k l c h
    simp [convertToTuple] at h
  | cons t rest ih =>
    intro k l c h
    unfold convertToTuple at h
    cases hg : values[k]? with
    | none => simp [hg] at h
    | some raw =>
      simp only [hg] at h
      cases hc : convertFromString t raw with
      | none =>
        simp [hc] at h
        exact h.1.symm
      | some v =>
        simp only [hc] at h
        cases hr : convertToTuple values ln (k + 1) rest with
        | record vs => simp [hr] at h
        | error l2 c2 =>
          simp [hr] at h
          exact h.1 ▸ ih (k + 1) l2 c2 hr
        | undefinedRead i2 => simp [hr] at h

/-- C9 amended: every DecodeError raised on the first decoded row of a
stream reports line number 1, for every skip count k — the iterator's line
counter starts at zero after the constructor has discarded the skipped
lines, so skipped lines are never counted in reported line numbers. -/
theorem c9_amended_first_row_line (lines : List (List Char)) (k : Nat) (d q : Char)
    (hne : lines.drop k ≠ []) (schema : List FieldType) (l c : Nat)
    (herr : getValues (CSVParserState.make lines k d q).begin.values
        (CSVParserState.make lines k d q).begin.rowLine schema = .error l c) :
    l = 1 := by
  have hrow : (CSVParserState.make lines k d q).begin.rowLine = 1 := by
    obtain ⟨line, rest, hlr⟩ : ∃ a r, lines.drop k = a :: r := by
      cases hd : lines.drop k with
      | nil => exact absurd hd hne
      | cons a r => exact ⟨a, r, rfl⟩
    simp [CSVParserState.make, CSVParserState.begin, CSVParserIterator.make,
      CSVParserIterator.advance, hlr]
  rw [hrow] at herr
  exact convertToTuple_error_line _ 1 schema 0 l c (by simpa [getValues] using herr)

/-- Witness for C9 amended: skip count 1 over the lines `h`, `x` with
schema {int}; the hypotheses hold and the error line is 1. -/
theorem c9_amended_first_row_line_witness : (1 : Nat) = 1 :=
  c9_amended_first_row_line [['h'], ['x']] 1 ',' '\"' (by decide) [.tInt] 1 0 (by decide)

/-- If all conversions strictly before relative index `i` succeed and the
conversion at `i` fails, `convertToTuple` starting at absolute index `k`
returns the exception for column `k + i`. -/
theorem convertToTuple_first_fail (values : List (List Char)) (ln : Nat) :
    ∀ (s : List FieldType) (k i : Nat),
      (∀ j, j < i → ∃ t raw v, s[j]? = some t ∧ values[k + j]? = some raw ∧
        convertFromString t raw = some v) →
      (∃ t raw, s[i]? = some t ∧ values[k + i]? = some raw ∧
        convertFromString t raw = none) →
      convertToTuple values ln k s = .error ln (k + i) := by
  intro s
  induction s with
  | nil =>
    intro k i _ hfail
    obtain ⟨t, raw, ht, _⟩ := hfail
    simp at ht
  | cons t0 rest ih =>
    intro k i hok hfail
    cases i with
    | zero =>
      obtain ⟨t, raw, ht, hraw, hconv⟩ := hfail
      simp at ht
      subst ht
      rw [Nat.add_zero] at hraw
      simp [convertToTuple, hraw, hconv]
    | succ i2 =>
      obtain ⟨t, raw0, v0, ht0, hraw0, hconv0⟩ := hok 0 (Nat.succ_pos i2)
      simp at ht0
      subst ht0
      rw [Nat.add_zero] at hraw0
      have hrec : convertToTuple values ln (k + 1) rest = .error ln (k + 1 + i2) := by
        apply ih (k + 1) i2
        · intro j hj
          obtain ⟨t, raw, v, h1, h2, h3⟩ := hok (j + 1) (Nat.succ_lt_succ hj)
          refine ⟨t, raw, v, by simpa using h1, ?_, h3⟩
          rw [show k + 1 + j = k + (j + 1) by omega]
          exact h2
        · obtain ⟨t, raw, h1, h2, h3⟩ := hfail
          refine ⟨t, raw, by simpa using h1, ?_, h3⟩
          rw [show k + 1 + i2 = k + (i2 + 1) by omega]
          exact h2
      have hcol : k + 1 + i2 = k + (i2 + 1) := by omega
      simp [convertToTuple, hraw0, hconv0, hrec, hcol]

/-- C4: for a token sequence and a schema of equal arity, if every field
before index i converts successfully and the conversion at index i fails,
decoding returns exactly the DecodeError for column i (carrying the row's
line number); the fields after i play no role (they are unconstrained
here), and no partial record is exposed. -/
theorem c4_first_failure_column (values : List (List Char)) (schema : List FieldType)
    (ln i : Nat)
    (hlen : values.length = schema.length)
    (hok : ∀ j, j < i → ∃ t raw v, schema[j]? = some t ∧ values[j]? = some raw ∧
      convertFromString t raw = some v)
    (hfail : ∃ t raw, schema[i]? = some t ∧ values[i]? = some raw ∧
      convertFromString t raw = none) :
    getValues values ln schema = .error ln i := by
  have := convertToTuple_first_fail values ln schema 0 i
    (by simpa using hok) (by simpa using hfail)
  simpa [getValues] using this

/-- Witness for C4: tokens `1`, `x` against schema {int, int}; field 0
converts, field 1 fails, and the decode error names column 1. -/
theorem c4_first_failure_column_witness :
    getValues [['1'], ['x']] 3 [.tInt, .tInt] = .error 3 1 :=
  c4_first_failure_column [['1'], ['x']] [.tInt, .tInt] 3 1 (by decide)
    (fun j hj => by
      have hj0 : j = 0 := by omega
      subst hj0
      exact ⟨.tInt, ['1'], .vInt 1, by decide, by decide, by decide⟩)
    ⟨.tInt, ['x'], by decide, by decide, by decide⟩

end CSVParser

namespace CSVParser

/-- Quote-processing preserves the number of cells. -/
theorem processCells_length (q : Char) : ∀ (b : Bool) (cells : List (List Char)),
    (processCells q b cells).length = cells.length := by
  intro b cells
  induction cells generalizing b with
  | nil => rfl
  | cons c cs ih => simp [processCells, ih]

/-- One-step unfolding of `splitCells` on a nonempty line. -/
theorem splitCells_cons (d c : Char) (cs : List Char) :
    splitCells d (c :: cs) =
      if c = d then [] :: splitCells d cs
      else
        match splitCells d cs with
        | [] => [[c]]
        | cell :: rest => (c :: cell) :: rest := rfl

/-- Splitting a nonempty line produces at least one cell. -/
theorem splitCells_ne_nil (d c : Char) (cs : List Char) : splitCells d (c :: cs) ≠ [] := by
  by_cases h : c = d
  · simp [splitCells, h]
  · simp only [splitCells, if_neg h]
    cases hs : splitCells d cs <;> simp

/-- Number of cells produced by the `getline` split: one per
delimiter-separated cell, except that the empty line yields none and a line
ending in the delimiter lacks the final empty cell. -/
theorem splitCells_length (d : Char) : ∀ line : List Char,
    (splitCells d line).length =
      if line = [] then 0
      else if line.getLast? = some d then line.count d
      else line.count d + 1 := by
  intro line
  induction line with
  | nil => simp [splitCells]
  | cons c cs ih =>
    by_cases hcd : c = d
    · subst hcd
      cases cs with
      | nil => simp [splitCells]
      | cons c2 cs2 =>
        have hL : splitCells c (c :: c2 :: cs2) = [] :: splitCells c (c2 :: cs2) := by
          simp [splitCells]
        rw [hL, List.length_cons, ih]
        by_cases hg : (c2 :: cs2).getLast? = some c
        · simp [hg]
        · simp [hg]
    · cases hs : splitCells d cs with
      | nil =>
        have hcs : cs = [] := by
          cases cs with
          | nil => rfl
          | cons c2 cs2 => exact absurd hs (splitCells_ne_nil d c2 cs2)
        subst hcs
        simp [splitCells, hcd, Ne.symm hcd]
      | cons cell rest =>
        have hcs : cs ≠ [] := by
          intro hc
          subst hc
          simp [splitCells] at hs
        obtain ⟨c2, cs2, rfl⟩ := List.exists_cons_of_ne_nil hcs
        have hL : splitCells d (c :: c2 :: cs2) = (c :: cell) :: rest := by
          rw [splitCells_cons, if_neg hcd, hs]
        have hlen : ((c :: cell) :: rest).length = (splitCells d (c2 :: cs2)).length := by
          rw [hs]
          simp
        rw [hL, hlen, ih]
        by_cases hg : (c2 :: cs2).getLast? = some d
        · simp [hg, List.count_cons_of_ne (Ne.symm hcd)]
        · simp [hg, List.count_cons_of_ne (Ne.symm hcd)]

/-- C5 amended: the tokenizer emits one string per `getline`-produced cell
in original order, so the token count is the number of delimiter-separated
cells with two boundary exceptions forced by the `getline` loop: the empty
line yields zero tokens, and a nonempty line ending in the delimiter yields
delimiter-count tokens (the trailing empty cell is not emitted); every
other line yields delimiter-count + 1 tokens. -/
theorem c5_amended_token_count (line : List Char) (d q : Char) :
    (CSVRow.parse line d q).length =
      if line = [] then 0
      else if line.getLast? = some d then line.count d
      else line.count d + 1 := by
  unfold CSVRow.parse
  rw [processCells_length q false (splitCells d line), splitCells_length d line]

end CSVParser

namespace CSVParser

/-- A digit character never `==`-matches a non-digit character. -/
theorem beq_false_of_isDigit {c x : Char} (h : c.isDigit = true) (hx : x.isDigit = false) :
    (c == x) = false := by
  by_cases hc : c = x
  · subst hc
    rw [h] at hx
    exact Bool.noConfusion hx
  · cases hb : c == x
    · rfl
    · exact absurd (eq_of_beq hb) hc

/-- A digit character never equals a non-digit character. -/
theorem ne_of_isDigit {c x : Char} (h : c.isDigit = true) (hx : x.isDigit = false) :
    c ≠ x := by
  intro hc
  subst hc
  rw [h] at hx
  exact Bool.noConfusion hx

/-- Digits are not stream-sentry whitespace. -/
theorem isDigit_not_space {c : Char} (h : c.isDigit = true) : isSpaceChar c = false := by
  unfold isSpaceChar
  rw [beq_false_of_isDigit h (by decide), beq_false_of_isDigit h (by decide),
    beq_false_of_isDigit h (by decide), beq_false_of_isDigit h (by decide),
    beq_false_of_isDigit h (by decide), beq_false_of_isDigit h (by decide)]
  rfl

/-- Dropping a satisfying prefix skips past it. -/
theorem dropWhile_append_all {p : Char → Bool} :
    ∀ (ws l : List Char), (∀ c ∈ ws, p c = true) →
      (ws ++ l).dropWhile p = l.dropWhile p := by
  intro ws l
  induction ws with
  | nil => intro _; rfl
  | cons a ws2 ih =>
    intro h
    have ha : p a = true := h a (List.mem_cons_self a ws2)
    simp only [List.cons_append, List.dropWhile_cons, ha, if_true]
    exact ih (fun c hc => h c (List.mem_cons_of_mem a hc))

/-- `dropWhile` is the identity when the head already fails the predicate. -/
theorem dropWhile_head_false {p : Char → Bool} (l : List Char)
    (h : ∀ c, l.head? = some c → p c = false) : l.dropWhile p = l := by
  cases l with
  | nil => rfl
  | cons a l2 => simp [List.dropWhile_cons, h a rfl]

/-- `takeWhile` takes exactly a satisfying prefix when the remainder's head
fails the predicate. -/
theorem takeWhile_append_all {p : Char → Bool} :
    ∀ (ds l : List Char), (∀ c ∈ ds, p c = true) →
      (∀ c, l.head? = some c → p c = false) →
      (ds ++ l).takeWhile p = ds := by
  intro ds l
  induction ds with
  | nil =>
    intro _ hl
    cases l with
    | nil => rfl
    | cons a l2 => simp [List.takeWhile_cons, hl a rfl]
  | cons a ds2 ih =>
    intro hds hl
    have ha : p a = true := hds a (List.mem_cons_self a ds2)
    simp only [List.cons_append, List.takeWhile_cons, ha, if_true]
    rw [ih (fun c hc => hds c (List.mem_cons_of_mem a hc)) hl]

/-- `dropWhile` drops exactly a satisfying prefix when the remainder's head
fails the predicate. -/
theorem dropWhile_append_all_head {p : Char → Bool} :
    ∀ (ds l : List Char), (∀ c ∈ ds, p c = true) →
      (∀ c, l.head? = some c → p c = false) →
      (ds ++ l).dropWhile p = l := by
  intro ds l
  induction ds with
  | nil => intro _ hl; exact dropWhile_head_false l hl
  | cons a ds2 ih =>
    intro hds hl
    have ha : p a = true := hds a (List.mem_cons_self a ds2)
    simp only [List.cons_append, List.dropWhile_cons, ha, if_true]
    exact ih (fun c hc => hds c (List.mem_cons_of_mem a hc)) hl

/-- Behaviour of `operator>> (int)` on optional whitespace, a nonempty
all-digit run, and a remainder that does not begin with a digit: the
whitespace is skipped, the digits are consumed (failing on 32-bit
overflow), and exactly the remainder is left unread. -/
theorem extractInt_digits (ws ds extra : List Char)
    (hws : ∀ c ∈ ws, isSpaceChar c = true)
    (hne : ds ≠ [])
    (hdig : ∀ c ∈ ds, c.isDigit = true)
    (hextra : ∀ c, extra.head? = some c → c.isDigit = false) :
    extractInt (ws ++ ds ++ extra) =
      if intMax < (digitsToNat ds : Int) then ⟨0, false, extra⟩
      else ⟨digitsToNat ds, true, extra⟩ := by
  obtain ⟨d0, ds2, rfl⟩ := List.exists_cons_of_ne_nil hne
  have hd0 : d0.isDigit = true := hdig d0 (List.mem_cons_self d0 ds2)
  have hdrop : (ws ++ (d0 :: ds2) ++ extra).dropWhile isSpaceChar = (d0 :: ds2) ++ extra := by
    rw [List.append_assoc, dropWhile_append_all ws ((d0 :: ds2) ++ extra) hws]
    apply dropWhile_head_false
    intro c hc
    simp only [List.cons_append, List.head?_cons, Option.some.injEq] at hc
    subst hc
    exact isDigit_not_space hd0
  have hhead : ((d0 :: ds2) ++ extra).head? = some d0 := by simp
  have hm : ¬(((d0 :: ds2) ++ extra).head? = some '-') := by
    rw [hhead]
    intro hcon
    simp only [Option.some.injEq] at hcon
    exact ne_of_isDigit hd0 (by decide) hcon
  have hp : ¬(((d0 :: ds2) ++ extra).head? = some '+') := by
    rw [hhead]
    intro hcon
    simp only [Option.some.injEq] at hcon
    exact ne_of_isDigit hd0 (by decide) hcon
  have htake : ((d0 :: ds2) ++ extra).takeWhile Char.isDigit = d0 :: ds2 :=
    takeWhile_append_all (d0 :: ds2) extra hdig hextra
  have hdropD : ((d0 :: ds2) ++ extra).dropWhile Char.isDigit = extra :=
    dropWhile_append_all_head (d0 :: ds2) extra hdig hextra
  have hsign : ¬(((d0 :: ds2) ++ extra).head? = some '-'
      ∨ ((d0 :: ds2) ++ extra).head? = some '+') := by
    rintro (h | h)
    · exact hm h
    · exact hp h
  simp only [extractInt]
  rw [hdrop, if_neg hm, if_neg hsign, htake, hdropD,
    if_neg (List.cons_ne_nil d0 ds2), one_mul]
  by_cases hv : intMax < (digitsToNat (d0 :: ds2) : Int)
  · rw [if_pos (Or.inr hv), if_pos hv]
  · have hnot : ¬((digitsToNat (d0 :: ds2) : Int) < intMin
        ∨ intMax < (digitsToNat (d0 :: ds2) : Int)) := by
      rintro (h1 | h2)
      · have h0 : (0 : Int) ≤ (digitsToNat (d0 :: ds2) : Int) := Int.natCast_nonneg _
        unfold intMin at h1
        omega
      · exact hv h2
    rw [if_neg hnot, if_neg hv]

/-- C10 amended: for the numeric `int` target, a field of optional leading
whitespace followed by a numeral reaching the end of the field converts to
the numeral's value provided that value fits the 32-bit `int` range (an
out-of-range numeral fails, which the original claim overlooked); and any
nonempty remainder after the numeral — including trailing whitespace —
makes the conversion fail. -/
theorem c10_amended_numeric_conversion (ws ds extra : List Char)
    (hws : ∀ c ∈ ws, isSpaceChar c = true)
    (hne : ds ≠ [])
    (hdig : ∀ c ∈ ds, c.isDigit = true)
    (hrange : (digitsToNat ds : Int) ≤ intMax)
    (hextra : ∀ c, extra.head? = some c → c.isDigit = false) :
    convertFromString .tInt (ws ++ ds) = some (.vInt (digitsToNat ds))
    ∧ (extra ≠ [] → convertFromString .tInt (ws ++ ds ++ extra) = none) := by
  have hv : ¬ intMax < (digitsToNat ds : Int) := not_lt.mpr hrange
  constructor
  · have h1 : extractInt (ws ++ ds ++ []) = ⟨digitsToNat ds, true, []⟩ := by
      rw [extractInt_digits ws ds [] hws hne hdig (fun c hc => by simp at hc), if_neg hv]
    rw [List.append_nil] at h1
    simp [convertFromString, convertIntFromString, h1]
  · intro hex
    have h2 := extractInt_digits ws ds extra hws hne hdig hextra
    simp only [convertFromString, convertIntFromString, h2]
    by_cases hvv : intMax < (digitsToNat ds : Int)
    · rw [if_pos hvv]
      simp [hex]
    · rw [if_neg hvv]
      simp [hex]

/-- Witness for C10 amended: the field `" 42"` (space, then a numeral to
the end) converts to 42, and the field `" 42 "` with a trailing space
fails. -/
theorem c10_amended_numeric_conversion_witness :
    convertFromString .tInt ([' '] ++ ['4', '2']) = some (.vInt (digitsToNat ['4', '2']))
    ∧ ([' '] ≠ ([] : List Char) →
        convertFromString .tInt ([' '] ++ ['4', '2'] ++ [' ']) = none) :=
  c10_amended_numeric_conversion [' '] ['4', '2'] [' ']
    (by decide) (by decide) (by decide) (by decide)
    (fun c hc => by
      simp only [List.head?_cons, Option.some.injEq] at hc
      subst hc
      decide)

end CSVParser
